import Mathlib

/-!
Shallow embedding of the graph-classification tutorial notebook
(`graph_classification_tutorial.ipynb`).

Real-valued tensors are modelled as rational row vectors; graphs follow the
DGL graph object (node count, directed edge list, node-data dictionary, and
the batch segmentation `batch_num_nodes`).  Library calls whose numeric
content is irrational or stateful are abstracted as explicit function
parameters: the inverse square root used by graph-convolution degree
normalisation (`invSqrt`), the numpy seeded permutation (`rsPermutation`),
the cross-entropy loss (`lossOf`) and the backward/Adam update (`adamStep`).
Everything else is translated directly from the notebook cells.
-/

/-- Feature rows: rational stand-ins for float tensor rows. -/
abbrev Vec := List ℚ

/-- Elementwise addition of two rows (torch `+` on equal shapes). -/
def vadd (a b : Vec) : Vec := List.zipWith (· + ·) a b

/-- Scalar multiple of a row. -/
def vscale (c : ℚ) (v : Vec) : Vec := v.map (fun x => c * x)

/-- Sum of a list of rows of dimension `d`; the empty sum is the zero row. -/
def vsum (d : ℕ) (l : List Vec) : Vec := l.foldl vadd (List.replicate d 0)

/-- `F.relu`, elementwise. -/
def relu (v : Vec) : Vec := v.map (fun x => max 0 x)

/-- Row vector times matrix, `torch.matmul(x, W)` with `W` given by its
`in_feats` rows of length `outDim`. -/
def mulRowMat (x : Vec) (W : List Vec) (outDim : ℕ) : Vec :=
  vsum outDim (List.zipWith (fun xi row => vscale xi row) x W)

/-- DGL graph object: node count, directed edge list (source, destination),
node-data dictionary `ndata`, and the per-graph node counts of a batched
graph (`batch_num_nodes`; a freshly constructed single graph has one
segment holding all its nodes). -/
structure DGLGraph where
  numNodes : ℕ
  edges : List (ℕ × ℕ)
  ndata : List (String × List Vec)
  batchNumNodes : List ℕ
deriving DecidableEq

/-- Read one node-data key (`g.ndata[k]`), empty when absent. -/
def ndLookup (g : DGLGraph) (k : String) : List Vec :=
  ((g.ndata.find? (fun p => p.1 == k)).map Prod.snd).getD []

/-- Write one node-data key (`g.ndata[k] = v`). -/
def ndSet (g : DGLGraph) (k : String) (v : List Vec) : DGLGraph :=
  { g with ndata := (k, v) :: g.ndata.filter (fun p => !(p.1 == k)) }

/-- `g.ndata.pop(k)`: the stored rows and the graph without the key. -/
def ndPop (g : DGLGraph) (k : String) : List Vec × DGLGraph :=
  (ndLookup g k, { g with ndata := g.ndata.filter (fun p => !(p.1 == k)) })

/-- `g.local_scope()`: run the body on the graph; node-data writes made
inside the scope are discarded on exit, so the caller keeps the original
graph. -/
def localScope {α : Type} (g : DGLGraph) (body : DGLGraph → α × DGLGraph) :
    α × DGLGraph :=
  ((body g).1, g)

/-- In-degree of node `v`. -/
def inDeg (g : DGLGraph) (v : ℕ) : ℕ :=
  (g.edges.filter (fun e => e.2 == v)).length

/-- Sources of the in-edges of `v`, in edge-list order. -/
def inSrcs (g : DGLGraph) (v : ℕ) : List ℕ :=
  (g.edges.filter (fun e => e.2 == v)).map Prod.fst

/-- Parameters of one `dgl.nn.pytorch.conv.GraphConv` layer: the weight
matrix (`in_feats` rows of length `out_feats`) and the bias row.  All three
layers in the notebook are built with `activation=F.relu`, so the
activation is fixed to `relu` in `convForward`. -/
structure ConvLayer where
  weight : List Vec
  bias : Vec
deriving DecidableEq

/-- One GraphConv forward pass (DGL 0.4 semantics with `norm=True`):
features are scaled per node by `invSqrt (max indegree 1)` — the library's
`in_degrees().clamp(min=1) ** (-0.5)`, whose irrational inverse square root
is supplied as the parameter `invSqrt` — then summed over in-edges,
multiplied by the weight matrix, scaled again by the same factor, shifted
by the bias and passed through the activation.  DGL chooses between
multiply-then-aggregate and aggregate-then-multiply by feature width; the
two are equal by linearity and the latter is used here. -/
def convForward (invSqrt : ℕ → ℚ) (L : ConvLayer) (g : DGLGraph)
    (feats : List Vec) : List Vec :=
  let inDim := L.weight.length
  let outDim := L.bias.length
  let nrm := fun v => invSqrt (max (inDeg g v) 1)
  let normed := (List.range g.numNodes).map
    (fun v => vscale (nrm v) (feats.getD v (List.replicate inDim 0)))
  (List.range g.numNodes).map (fun v =>
    let agg := vsum inDim ((inSrcs g v).map
      (fun u => normed.getD u (List.replicate inDim 0)))
    relu (vadd (vscale (nrm v) (mulRowMat agg L.weight outDim)) L.bias))

/-- The notebook's `GCNModel`: three GraphConv layers (built as the
`ModuleList` of exactly three `conv.GraphConv` with `activation=F.relu`)
and the linear classifier. -/
structure GCNModel where
  conv1 : ConvLayer
  conv2 : ConvLayer
  conv3 : ConvLayer
  clsWeight : List Vec
  clsBias : Vec
deriving DecidableEq

/-- `nn.Linear` applied to one row: `x * W + b`. -/
def linearForward (W : List Vec) (b : Vec) (x : Vec) : Vec :=
  vadd (mulRowMat x W b.length) b

/-- Split a list into consecutive segments of the given lengths. -/
def segmentsOf {α : Type} : List ℕ → List α → List (List α)
  | [], _ => []
  | c :: cs, xs => xs.take c :: segmentsOf cs (xs.drop c)

/-- Sum of a list of rows, the dimension read off the first row. -/
def sumRows (rows : List Vec) : Vec := vsum (rows.headD []).length rows

/-- `dgl.sum_nodes(g, k)`: per-graph sums of the rows stored at key `k`,
segmented by `batch_num_nodes`. -/
def sum_nodes (g : DGLGraph) (k : String) : List Vec :=
  (segmentsOf g.batchNumNodes (ndLookup g k)).map sumRows

/-- `GCNModel.forward`: chain the three convolutions, write the node
embeddings under `ndata` key `feat` inside a local scope, read the
per-graph sums back out, and apply the classifier.  The result pairs the
per-graph logit rows with the graph as the caller sees it afterwards. -/
def GCNModel.forward (invSqrt : ℕ → ℚ) (m : GCNModel) (g : DGLGraph)
    (features : List Vec) : List Vec × DGLGraph :=
  let h := convForward invSqrt m.conv3 g
    (convForward invSqrt m.conv2 g (convForward invSqrt m.conv1 g features))
  let p := localScope g (fun g1 =>
    let g2 := ndSet g1 "feat" h
    (sum_nodes g2 "feat", g2))
  ((p.1).map (linearForward m.clsWeight m.clsBias), p.2)

/-- One-node, zero-edge graph with no stored node data: the smallest
single-graph batch. -/
def singletonGraph : DGLGraph := ⟨1, [], [], [1]⟩

/-- The zero-neighbor convolution: `convForward` as seen by one node with
no in-edges, read off as a per-node feature map. -/
def zeroNeighborConv (invSqrt : ℕ → ℚ) (L : ConvLayer) (x : Vec) : Vec :=
  (convForward invSqrt L singletonGraph [x]).headD []

/-- `dgl.batch` of two graphs: nodes of the second are renumbered past the
first, node data is concatenated key-wise (keys taken from the first, as
DGL requires a common schema), and the batch segmentations are
concatenated. -/
def batchTwo (g1 g2 : DGLGraph) : DGLGraph :=
  { numNodes := g1.numNodes + g2.numNodes
    edges := g1.edges ++ g2.edges.map
      (fun e => (e.1 + g1.numNodes, e.2 + g1.numNodes))
    ndata := g1.ndata.map (fun p => (p.1, p.2 ++ ndLookup g2 p.1))
    batchNumNodes := g1.batchNumNodes ++ g2.batchNumNodes }

/-- `dgl.batch`: ordered disjoint union of a list of graphs. -/
def dglBatch (gs : List DGLGraph) : DGLGraph :=
  gs.foldr batchTwo ⟨0, [], [], []⟩

/-- `collate_molgraphs_for_classification`: unzip the (graph, label)
pairs, batch the graphs, and stack the labels in input order. -/
def collate_molgraphs_for_classification (data : List (DGLGraph × ℕ)) :
    DGLGraph × List ℕ :=
  let gl := data.unzip
  (dglBatch gl.1, gl.2)

theorem dglBatch_numNodes (gs : List DGLGraph) :
    (dglBatch gs).numNodes = (gs.map DGLGraph.numNodes).sum := by
  induction gs with
  | nil => rfl
  | cons g gs ih => simp [dglBatch, batchTwo, List.foldr] at ih ⊢; omega

/-- C3: the batch collator preserves total node count — the merged
disjoint-union graph has exactly the sum of the input graphs' node
counts. -/
theorem collate_preserves_node_count (data : List (DGLGraph × ℕ)) :
    (collate_molgraphs_for_classification data).1.numNodes =
      (data.map (fun p => p.1.numNodes)).sum := by
  simp [collate_molgraphs_for_classification, dglBatch_numNodes,
    List.unzip_fst, List.map_map, Function.comp_def]

/-- C4: the label vector returned by the batch collator lists the labels
in exactly the input order. -/
theorem collate_label_order (data : List (DGLGraph × ℕ)) :
    (collate_molgraphs_for_classification data).2 = data.map Prod.snd := by
  simp [collate_molgraphs_for_classification, List.unzip_snd]

/-- C9: the model forward pass returns the graph unchanged — the per-node
embedding written under key `feat` during readout stays confined to the
local scope, so the node-data mapping after `forward` is the one before. -/
theorem forward_graph_unchanged (invSqrt : ℕ → ℚ) (m : GCNModel)
    (g : DGLGraph) (features : List Vec) :
    (GCNModel.forward invSqrt m g features).2 = g ∧
    (GCNModel.forward invSqrt m g features).2.ndata = g.ndata := by
  exact ⟨rfl, rfl⟩

/-- Lengths used by `dgl.data.utils.split_dataset`: each fraction is scaled
by the dataset size and converted with `astype(int)` (truncation, equal to
the floor on the nonnegative values arising here); the last length is then
overwritten so that the lengths sum to the dataset size. -/
def splitLengths (n : ℕ) (fracList : List ℚ) : List ℕ :=
  let raw := fracList.map (fun f => (⌊f * (n : ℚ)⌋).toNat)
  raw.dropLast ++ [n - raw.dropLast.sum]

/-- `split_dataset(dataset, frac_list, shuffle, random_state)`: permute the
index range with a numpy generator freshly seeded from `random_state` (the
Mersenne-Twister permutation itself is library-internal and enters as the
parameter `rsPermutation`), then cut consecutive segments of the computed
lengths — the library slices `indices[offset - length : offset]` at the
cumulative offsets, which yields exactly these consecutive segments. -/
def split_dataset (rsPermutation : ℕ → ℕ → List ℕ) (n : ℕ)
    (fracList : List ℚ) (shuffle : Bool) (randomState : ℕ) :
    List (List ℕ) :=
  let indices := if shuffle then rsPermutation randomState n else List.range n
  segmentsOf (splitLengths n fracList) indices

/-- Ambient interpreter state relevant to randomness: the global numpy
generator.  `np.random.RandomState(seed=...)` builds a fresh generator from
the seed alone, so `split_dataset` neither reads nor advances this
state. -/
structure NumpyGlobalState where
  rngState : ℕ
deriving DecidableEq

/-- Calling `split_dataset` inside a program: the ambient global generator
is threaded through untouched and the result depends only on the seed. -/
def splitDatasetCall (rsPermutation : ℕ → ℕ → List ℕ) (s : NumpyGlobalState)
    (n : ℕ) (fracList : List ℚ) (shuffle : Bool) (randomState : ℕ) :
    List (List ℕ) × NumpyGlobalState :=
  (split_dataset rsPermutation n fracList shuffle randomState, s)

/-- C5: with `shuffle=true` and a fixed seed the split is deterministic —
two calls, whatever the ambient numpy state before each and in particular
one call directly after the other, produce the same partition. -/
theorem split_seed_deterministic (rsPermutation : ℕ → ℕ → List ℕ)
    (s1 s2 : NumpyGlobalState) (n : ℕ) (fracList : List ℚ) (seed : ℕ) :
    (splitDatasetCall rsPermutation s1 n fracList true seed).1 =
      (splitDatasetCall rsPermutation s2 n fracList true seed).1 ∧
    (splitDatasetCall rsPermutation
      (splitDatasetCall rsPermutation s1 n fracList true seed).2
      n fracList true seed).1 =
      (splitDatasetCall rsPermutation s1 n fracList true seed).1 := by
  exact ⟨rfl, rfl⟩

/-- C2: for a fixed seed, splitting with ratios `[0.8, 0.2]` yields exactly
two index lists that are disjoint, together cover the full index range,
and whose sizes match the requested ratios within one element; for a
600-graph dataset the sizes are exactly 480 and 120. -/
theorem split_partition (rsPermutation : ℕ → ℕ → List ℕ) (seed n : ℕ)
    (hperm : (rsPermutation seed n).Perm (List.range n)) :
    (split_dataset rsPermutation n [4/5, 1/5] true seed).length = 2 ∧
    (∀ x ∈ (split_dataset rsPermutation n [4/5, 1/5] true seed).getD 0 [],
      x ∉ (split_dataset rsPermutation n [4/5, 1/5] true seed).getD 1 []) ∧
    ((split_dataset rsPermutation n [4/5, 1/5] true seed).getD 0 [] ++
      (split_dataset rsPermutation n [4/5, 1/5] true seed).getD 1 []).Perm
      (List.range n) ∧
    |((((split_dataset rsPermutation n [4/5, 1/5] true seed).getD 0 []).length : ℚ)
      - 4/5 * n)| ≤ 1 ∧
    |((((split_dataset rsPermutation n [4/5, 1/5] true seed).getD 1 []).length : ℚ)
      - 1/5 * n)| ≤ 1 ∧
    (n = 600 →
      ((split_dataset rsPermutation n [4/5, 1/5] true seed).getD 0 []).length = 480 ∧
      ((split_dataset rsPermutation n [4/5, 1/5] true seed).getD 1 []).length = 120) := by
  have hsplit : split_dataset rsPermutation n [4/5, 1/5] true seed
      = [(rsPermutation seed n).take ((⌊(4/5 : ℚ) * (n : ℚ)⌋).toNat),
         ((rsPermutation seed n).drop ((⌊(4/5 : ℚ) * (n : ℚ)⌋).toNat)).take
           (n - (⌊(4/5 : ℚ) * (n : ℚ)⌋).toNat)] := rfl
  set idx := rsPermutation seed n with hidx
  set k : ℕ := (⌊(4/5 : ℚ) * (n : ℚ)⌋).toNat with hk
  have hlen : idx.length = n := by simpa using hperm.length_eq
  have hz0 : (0 : ℤ) ≤ ⌊(4/5 : ℚ) * (n : ℚ)⌋ := Int.floor_nonneg.mpr (by positivity)
  have hkq : (k : ℚ) = ((⌊(4/5 : ℚ) * (n : ℚ)⌋ : ℤ) : ℚ) := by
    rw [hk]; exact_mod_cast congrArg (Int.cast : ℤ → ℚ) (Int.toNat_of_nonneg hz0)
  have hfl : ((⌊(4/5 : ℚ) * (n : ℚ)⌋ : ℤ) : ℚ) ≤ 4/5 * n := Int.floor_le _
  have hfu : (4/5 : ℚ) * n < ((⌊(4/5 : ℚ) * (n : ℚ)⌋ : ℤ) : ℚ) + 1 :=
    Int.lt_floor_add_one _
  have hnq : (0 : ℚ) ≤ (n : ℚ) := Nat.cast_nonneg n
  have hkn : k ≤ n := by
    have h1 : (k : ℚ) ≤ (n : ℚ) := by rw [hkq]; linarith
    exact_mod_cast h1
  have ht : (idx.take k).length = k := by
    simp [List.length_take, hlen]; omega
  have hv : (idx.drop k).take (n - k) = idx.drop k := by
    apply List.take_of_length_le; simp [hlen]
  have hdlen : (idx.drop k).length = n - k := by simp [hlen]
  have happ : idx.take k ++ idx.drop k = idx := List.take_append_drop k idx
  have hnd : idx.Nodup := hperm.nodup_iff.mpr (List.nodup_range n)
  have hdisj : (idx.take k).Disjoint (idx.drop k) := by
    have h2 : (idx.take k ++ idx.drop k).Nodup := by rw [happ]; exact hnd
    exact (List.nodup_append.mp h2).2.2
  rw [hsplit]
  simp only [List.getD_cons_zero, List.getD_cons_succ]
  refine ⟨rfl, ?_, ?_, ?_, ?_, ?_⟩
  · intro x hx hx'
    rw [hv] at hx'
    exact hdisj hx hx'
  · rw [hv, happ]; exact hperm
  · rw [ht, hkq, abs_le]; constructor <;> linarith
  · rw [hv, hdlen]
    rw [Nat.cast_sub hkn, hkq, abs_le]; constructor <;> linarith
  · intro h600
    subst h600
    have h480 : (⌊(4/5 : ℚ) * ((600 : ℕ) : ℚ)⌋) = 480 := by norm_num
    have hk480 : k = 480 := by rw [hk, h480]; rfl
    rw [ht, hv, hdlen, hk480]
    exact ⟨rfl, rfl⟩

/-- Witness for C2: the identity permutation on a 600-element dataset with
seed 42 satisfies the permutation hypothesis, and the split sizes are
exactly 480 and 120. -/
theorem split_partition_witness :
    (List.range 600).Perm (List.range 600) ∧
    ((split_dataset (fun _ m => List.range m) 600 [4/5, 1/5] true 42).getD 0
      []).length = 480 ∧
    ((split_dataset (fun _ m => List.range m) 600 [4/5, 1/5] true 42).getD 1
      []).length = 120 :=
  ⟨List.Perm.refl _,
   ((split_partition (fun _ m => List.range m) 42 600
      (List.Perm.refl _)).2.2.2.2.2 rfl).1,
   ((split_partition (fun _ m => List.range m) 42 600
      (List.Perm.refl _)).2.2.2.2.2 rfl).2⟩

theorem ndLookup_ndSet (g : DGLGraph) (k : String) (v : List Vec) :
    ndLookup (ndSet g k v) k = v := by
  simp [ndLookup, ndSet, List.find?]

theorem zeroNeighborConv_const (invSqrt : ℕ → ℚ) (L : ConvLayer) (x : Vec) :
    zeroNeighborConv invSqrt L x = zeroNeighborConv invSqrt L [] := rfl

theorem convForward_no_edges (invSqrt : ℕ → ℚ) (L : ConvLayer) (n : ℕ)
    (nd : List (String × List Vec)) (bnn : List ℕ) (feats : List Vec) :
    convForward invSqrt L ⟨n, [], nd, bnn⟩ feats
      = List.replicate n (zeroNeighborConv invSqrt L []) := by
  simp [convForward, zeroNeighborConv, singletonGraph, inDeg, inSrcs,
    List.map_const']

/-- C1: on a single-graph batch with zero edges the model forward pass
equals the linear classifier applied to the sum over nodes of the
ReLU-activated zero-neighbor convolution applied three times to the node
features — a pure per-node feature transform with no neighbor mixing. -/
theorem forward_zero_edges (invSqrt : ℕ → ℚ) (m : GCNModel) (n : ℕ)
    (nd : List (String × List Vec)) (feats : List Vec)
    (hf : feats.length = n) :
    (GCNModel.forward invSqrt m ⟨n, [], nd, [n]⟩ feats).1 =
      [linearForward m.clsWeight m.clsBias (sumRows (feats.map (fun x =>
        zeroNeighborConv invSqrt m.conv3 (zeroNeighborConv invSqrt m.conv2
          (zeroNeighborConv invSqrt m.conv1 x)))))] := by
  have hrhs : feats.map (fun x =>
      zeroNeighborConv invSqrt m.conv3 (zeroNeighborConv invSqrt m.conv2
        (zeroNeighborConv invSqrt m.conv1 x)))
      = List.replicate n (zeroNeighborConv invSqrt m.conv3 []) := by
    have : ∀ x, zeroNeighborConv invSqrt m.conv3 (zeroNeighborConv invSqrt
        m.conv2 (zeroNeighborConv invSqrt m.conv1 x))
        = zeroNeighborConv invSqrt m.conv3 [] := fun x => rfl
    simp only [this, List.map_const', hf]
  rw [hrhs]
  show ((sum_nodes (ndSet ⟨n, [], nd, [n]⟩ "feat"
      (convForward invSqrt m.conv3 ⟨n, [], nd, [n]⟩
        (convForward invSqrt m.conv2 ⟨n, [], nd, [n]⟩
          (convForward invSqrt m.conv1 ⟨n, [], nd, [n]⟩ feats)))) "feat").map
      (linearForward m.clsWeight m.clsBias)) = _
  rw [convForward_no_edges]
  simp [sum_nodes, ndLookup_ndSet, segmentsOf, List.take_replicate]

/-- Witness for C1: a concrete one-node, zero-edge batch with 1-dimensional
weights satisfies the hypothesis and the conclusion. -/
theorem forward_zero_edges_witness :
    (([[(1 : ℚ)]] : List Vec).length = 1) ∧
    (GCNModel.forward (fun _ => 1)
        ⟨⟨[[1]], [0]⟩, ⟨[[1]], [0]⟩, ⟨[[1]], [0]⟩, [[1]], [0]⟩
        ⟨1, [], [], [1]⟩ [[1]]).1 =
      [linearForward [[1]] [0] (sumRows (([[(1 : ℚ)]] : List Vec).map (fun x =>
        zeroNeighborConv (fun _ => 1) ⟨[[1]], [0]⟩
          (zeroNeighborConv (fun _ => 1) ⟨[[1]], [0]⟩
            (zeroNeighborConv (fun _ => 1) ⟨[[1]], [0]⟩ x)))))] :=
  ⟨rfl, forward_zero_edges (fun _ => 1)
    ⟨⟨[[1]], [0]⟩, ⟨[[1]], [0]⟩, ⟨[[1]], [0]⟩, [[1]], [0]⟩ 1 [] [[1]] rfl⟩

/-- `DataLoader` batching: consecutive chunks of at most `bs` items (the
notebook leaves `shuffle` at its default `False`, so loader order is subset
order and both loaders use `batch_size=512`). -/
def toBatches {α : Type} (bs : ℕ) : List α → List (List α)
  | [] => []
  | x :: xs => (x :: xs.take (bs - 1)) :: toBatches bs (xs.drop (bs - 1))
termination_by l => l.length
decreasing_by simp [List.length_drop]; omega

theorem toBatches_flatten {α : Type} (bs : ℕ) (l : List α) :
    (toBatches bs l).flatten = l := by
  induction l using toBatches.induct bs with
  | case1 => simp [toBatches]
  | case2 x xs ih =>
    rw [toBatches]
    simp [ih]

/-- First index of the maximum entry of a row, the scan carrying position,
best index and best value (`logits.argmax(1)`; ties keep the earliest
index). -/
def argmaxFrom : List ℚ → ℕ → ℕ → ℚ → ℕ
  | [], _, best, _ => best
  | x :: xs, i, best, bv =>
    if bv < x then argmaxFrom xs (i + 1) i x else argmaxFrom xs (i + 1) best bv

/-- Argmax of one logit row (0 on an empty row, which no real call hits). -/
def argmax (v : Vec) : ℕ :=
  match v with
  | [] => 0
  | x :: xs => argmaxFrom xs 1 0 x

/-- Number of positions where the predicted class equals the label
(`(logits.argmax(1) == labels.long()).float().sum()`). -/
def countCorrect (logits : List Vec) (labels : List ℕ) : ℕ :=
  (List.zip (logits.map argmax) labels).countP (fun p => p.1 == p.2)

/-- Per-batch forward computation shared verbatim by the training and the
evaluation loop bodies: collate the batch, pop the stored `node_attr`
features off the batched graph, and run the model forward on it. -/
def batchLogits (invSqrt : ℕ → ℚ) (m : GCNModel)
    (batch : List (DGLGraph × ℕ)) : List Vec :=
  let c := collate_molgraphs_for_classification batch
  let pa := ndPop c.1 "node_attr"
  (GCNModel.forward invSqrt m pa.2 pa.1).1

/-- One step of the evaluation loop's accumulation: add the batch's correct
count to `true_samples` (a float running sum) and the batch size to
`num_samples`. -/
def evalStep (invSqrt : ℕ → ℚ) (m : GCNModel) (acc : ℚ × ℕ)
    (b : List (DGLGraph × ℕ)) : ℚ × ℕ :=
  (acc.1 + (countCorrect (batchLogits invSqrt m b) (b.map Prod.snd) : ℚ),
   acc.2 + b.length)

/-- The evaluation loop over the validation loader, starting from
`true_samples = 0` and `num_samples = 0`. -/
def evalLoop (invSqrt : ℕ → ℚ) (m : GCNModel)
    (valset : List (DGLGraph × ℕ)) : ℚ × ℕ :=
  (toBatches 512 valset).foldl (evalStep invSqrt m) (0, 0)

/-- The final `true_samples/num_samples`: a Python float division that
raises `ZeroDivisionError` when `num_samples = 0`, modelled as `none`. -/
def validationAccuracy (invSqrt : ℕ → ℚ) (m : GCNModel)
    (valset : List (DGLGraph × ℕ)) : Option ℚ :=
  let r := evalLoop invSqrt m valset
  if r.2 = 0 then none else some (r.1 / (r.2 : ℚ))

theorem evalFold (invSqrt : ℕ → ℚ) (m : GCNModel)
    (bs : List (List (DGLGraph × ℕ))) (a : ℚ) (k : ℕ) :
    bs.foldl (evalStep invSqrt m) (a, k)
      = (a + (bs.map (fun b => (countCorrect (batchLogits invSqrt m b)
          (b.map Prod.snd) : ℚ))).sum,
         k + (bs.map List.length).sum) := by
  induction bs generalizing a k with
  | nil => simp
  | cons b bs ih => simp [evalStep, ih, add_assoc]

theorem evalLoop_eq (invSqrt : ℕ → ℚ) (m : GCNModel)
    (valset : List (DGLGraph × ℕ)) :
    evalLoop invSqrt m valset
      = (((toBatches 512 valset).map (fun b =>
          (countCorrect (batchLogits invSqrt m b) (b.map Prod.snd) : ℚ))).sum,
         valset.length) := by
  have hlen : ((toBatches 512 valset).map List.length).sum = valset.length := by
    rw [← List.length_flatten, toBatches_flatten]
  rw [evalLoop, evalFold, hlen]
  simp

/-- C6: the evaluation loop computes its per-batch logits with
`batchLogits`, the same forward computation the training loop uses; it
passes over the validation subset exactly once (the loader's batches
flatten back to the subset and every sample is counted once), and the
reported accuracy is the total number of correct predictions divided by
the total number of validation samples. -/
theorem eval_accuracy (invSqrt : ℕ → ℚ) (m : GCNModel)
    (valset : List (DGLGraph × ℕ)) :
    (toBatches 512 valset).flatten = valset ∧
    (evalLoop invSqrt m valset).2 = valset.length ∧
    (evalLoop invSqrt m valset).1 = ((toBatches 512 valset).map
      (fun b => (countCorrect (batchLogits invSqrt m b)
        (b.map Prod.snd) : ℚ))).sum ∧
    validationAccuracy invSqrt m valset =
      (if valset.isEmpty then none
       else some ((((toBatches 512 valset).map (fun b =>
         (countCorrect (batchLogits invSqrt m b)
           (b.map Prod.snd) : ℚ))).sum) / (valset.length : ℚ))) := by
  refine ⟨toBatches_flatten 512 valset, ?_, ?_, ?_⟩
  · rw [evalLoop_eq]
  · rw [evalLoop_eq]
  · rw [validationAccuracy, evalLoop_eq]
    cases valset with
    | nil => simp
    | cons a l => simp

/-- C10: the final validation accuracy is `true_samples/num_samples` with
`num_samples` the sum of the batch sizes seen, i.e. the size of the
validation subset; it is a number exactly when the validation subset is
non-empty, and for an empty subset the evaluation fails (the zero division
is modelled as `none`) rather than reporting a number. -/
theorem validation_defined_iff (invSqrt : ℕ → ℚ) (m : GCNModel)
    (valset : List (DGLGraph × ℕ)) :
    (evalLoop invSqrt m valset).2 = valset.length ∧
    ((validationAccuracy invSqrt m valset).isSome ↔ valset ≠ []) ∧
    validationAccuracy invSqrt m valset =
      (if (evalLoop invSqrt m valset).2 = 0 then none
       else some ((evalLoop invSqrt m valset).1 /
         ((evalLoop invSqrt m valset).2 : ℚ))) := by
  refine ⟨?_, ?_, rfl⟩
  · rw [evalLoop_eq]
  · rw [validationAccuracy, evalLoop_eq]
    cases valset with
    | nil => simp
    | cons a l => simp

/-- `np.mean` of the per-batch loss list. -/
def meanLoss (l : List ℚ) : ℚ := l.sum / (l.length : ℚ)

/-- Zero-padded five-wide decimal of the epoch index (Python `:05d`; above
99999 Python widens instead of truncating, and the notebook uses 50 or 500
epochs). -/
def pad5 (i : ℕ) : String :=
  if i < 100000 then
    String.mk [Nat.digitChar (i / 10000 % 10), Nat.digitChar (i / 1000 % 10),
      Nat.digitChar (i / 100 % 10), Nat.digitChar (i / 10 % 10),
      Nat.digitChar (i % 10)]
  else toString i

/-- Round to the nearest integer, ties to even (the rounding Python's fixed
formatting applies to the scaled value). -/
def roundHalfEven (q : ℚ) : ℤ :=
  if q - ⌊q⌋ < 1 / 2 then ⌊q⌋
  else if 1 / 2 < q - ⌊q⌋ then ⌊q⌋ + 1
  else if ⌊q⌋ % 2 = 0 then ⌊q⌋ else ⌊q⌋ + 1

/-- Four-decimal fixed-point rendering (Python `:.4f`): sign, integer part,
a dot, then exactly the four decimal digits of the rounded scaled value. -/
def fmt4 (q : ℚ) : String :=
  let n := roundHalfEven (q * 10000)
  let sgn := if n < 0 then "-" else ""
  let a := n.natAbs
  sgn ++ toString (a / 10000) ++ "." ++
    String.mk [Nat.digitChar (a / 1000 % 10), Nat.digitChar (a / 100 % 10),
      Nat.digitChar (a / 10 % 10), Nat.digitChar (a % 10)]

/-- Accumulators of one training epoch: the evolving parameters and
optimizer state, the epoch's `loss_list`, `true_samples` and
`num_samples`. -/
structure EpochState (σ : Type) where
  params : GCNModel
  opt : σ
  lossList : List ℚ
  trueSamples : ℚ
  numSamples : ℕ

/-- One training epoch over the fixed batch list.  The loss value
(`CrossEntropyLoss`, a softmax logarithm) and the backward/Adam update are
framework internals with irrational numerics; they enter as the parameters
`lossOf` and `adamStep`, the latter mapping parameters, optimizer state and
batch to the updated pair.  Logits for later batches use the parameters
already updated by earlier batches, as in the notebook. -/
def trainEpoch {σ : Type}
    (adamStep : GCNModel → σ → List (DGLGraph × ℕ) → GCNModel × σ)
    (lossOf : List Vec → List ℕ → ℚ) (invSqrt : ℕ → ℚ)
    (batches : List (List (DGLGraph × ℕ))) (p : GCNModel) (o : σ) :
    EpochState σ :=
  batches.foldl
    (fun st b =>
      let logits := batchLogits invSqrt st.params b
      let labels := b.map Prod.snd
      let upd := adamStep st.params st.opt b
      { params := upd.1, opt := upd.2,
        lossList := st.lossList ++ [lossOf logits labels],
        trueSamples := st.trueSamples + (countCorrect logits labels : ℚ),
        numSamples := st.numSamples + labels.length })
    ⟨p, o, [], 0, 0⟩

/-- The full training loop: `epochs` passes over the train loader's
batches, printing one report line at the end of each epoch. -/
def trainLoop {σ : Type}
    (adamStep : GCNModel → σ → List (DGLGraph × ℕ) → GCNModel × σ)
    (lossOf : List Vec → List ℕ → ℚ) (invSqrt : ℕ → ℚ)
    (trainset : List (DGLGraph × ℕ)) (p0 : GCNModel) (o0 : σ)
    (epochs : ℕ) : GCNModel × σ × List String :=
  (List.range epochs).foldl
    (fun acc i =>
      let st := trainEpoch adamStep lossOf invSqrt (toBatches 512 trainset)
        acc.1 acc.2.1
      (st.params, st.opt, acc.2.2 ++
        ["Epoch " ++ pad5 i ++ " | Loss: " ++ fmt4 (meanLoss st.lossList) ++
         " | Accuracy: " ++ fmt4 (st.trueSamples / (st.numSamples : ℚ))]))
    (p0, o0, [])

/-- C8: running the training loop for 0 epochs leaves every model
parameter at its initialized value (and prints nothing). -/
theorem train_zero_epochs {σ : Type}
    (adamStep : GCNModel → σ → List (DGLGraph × ℕ) → GCNModel × σ)
    (lossOf : List Vec → List ℕ → ℚ) (invSqrt : ℕ → ℚ)
    (trainset : List (DGLGraph × ℕ)) (p0 : GCNModel) (o0 : σ) :
    (trainLoop adamStep lossOf invSqrt trainset p0 o0 0).1 = p0 ∧
    (trainLoop adamStep lossOf invSqrt trainset p0 o0 0).2.1 = o0 ∧
    (trainLoop adamStep lossOf invSqrt trainset p0 o0 0).2.2 = [] := by
  exact ⟨rfl, rfl, rfl⟩

theorem trainLoop_lines_length {σ : Type}
    (adamStep : GCNModel → σ → List (DGLGraph × ℕ) → GCNModel × σ)
    (lossOf : List Vec → List ℕ → ℚ) (invSqrt : ℕ → ℚ)
    (trainset : List (DGLGraph × ℕ)) (p0 : GCNModel) (o0 : σ) (epochs : ℕ) :
    (trainLoop adamStep lossOf invSqrt trainset p0 o0 epochs).2.2.length
      = epochs := by
  induction epochs with
  | zero => rfl
  | succ e ih =>
    rw [trainLoop] at ih ⊢
    rw [List.range_succ, List.foldl_append]
    simp only [List.foldl_cons, List.foldl_nil]
    simp [ih]

/-- C7: at the end of every training epoch the loop appends exactly one
report line containing that epoch's mean loss and that epoch's accuracy,
literally of the form `Epoch <5-digit> | Loss: <4-decimal> | Accuracy:
<4-decimal>`; the line count equals the number of completed epochs and the
epoch field is exactly five characters wide. -/
theorem train_epoch_report {σ : Type}
    (adamStep : GCNModel → σ → List (DGLGraph × ℕ) → GCNModel × σ)
    (lossOf : List Vec → List ℕ → ℚ) (invSqrt : ℕ → ℚ)
    (trainset : List (DGLGraph × ℕ)) (p0 : GCNModel) (o0 : σ) (e : ℕ)
    (hts : trainset ≠ []) (he : e < 100000) :
    trainLoop adamStep lossOf invSqrt trainset p0 o0 (e + 1) =
      ((trainEpoch adamStep lossOf invSqrt (toBatches 512 trainset)
          (trainLoop adamStep lossOf invSqrt trainset p0 o0 e).1
          (trainLoop adamStep lossOf invSqrt trainset p0 o0 e).2.1).params,
       (trainEpoch adamStep lossOf invSqrt (toBatches 512 trainset)
          (trainLoop adamStep lossOf invSqrt trainset p0 o0 e).1
          (trainLoop adamStep lossOf invSqrt trainset p0 o0 e).2.1).opt,
       (trainLoop adamStep lossOf invSqrt trainset p0 o0 e).2.2 ++
         ["Epoch " ++ pad5 e ++ " | Loss: " ++
          fmt4 (meanLoss (trainEpoch adamStep lossOf invSqrt
              (toBatches 512 trainset)
              (trainLoop adamStep lossOf invSqrt trainset p0 o0 e).1
              (trainLoop adamStep lossOf invSqrt trainset p0 o0 e).2.1).lossList)
          ++ " | Accuracy: " ++
          fmt4 ((trainEpoch adamStep lossOf invSqrt (toBatches 512 trainset)
              (trainLoop adamStep lossOf invSqrt trainset p0 o0 e).1
              (trainLoop adamStep lossOf invSqrt trainset p0 o0 e).2.1).trueSamples
            / ((trainEpoch adamStep lossOf invSqrt (toBatches 512 trainset)
              (trainLoop adamStep lossOf invSqrt trainset p0 o0 e).1
              (trainLoop adamStep lossOf invSqrt trainset p0 o0 e).2.1).numSamples
              : ℚ))]) ∧
    (trainLoop adamStep lossOf invSqrt trainset p0 o0 (e + 1)).2.2.length
      = e + 1 ∧
    (pad5 e).length = 5 := by
  refine ⟨?_, trainLoop_lines_length adamStep lossOf invSqrt trainset p0 o0
    (e + 1), ?_⟩
  · conv_lhs => rw [trainLoop, List.range_succ, List.foldl_append]
    rw [trainLoop]
    simp only [List.foldl_cons, List.foldl_nil]
  · rw [pad5, if_pos he]
    rfl

/-- Witness for C7: at a concrete one-sample training set, trivial
optimizer state and epoch 0, the hypotheses hold and the loop has emitted
exactly one five-digit-labelled report line. -/
theorem train_epoch_report_witness :
    (([(⟨1, [], [("node_attr", [[(1 : ℚ)]])], [1]⟩, 0)] :
      List (DGLGraph × ℕ)) ≠ []) ∧
    (0 < 100000) ∧
    (trainLoop (fun p (o : Unit) _ => (p, o)) (fun _ _ => 0) (fun _ => 1)
      [(⟨1, [], [("node_attr", [[1]])], [1]⟩, 0)]
      ⟨⟨[[1]], [0]⟩, ⟨[[1]], [0]⟩, ⟨[[1]], [0]⟩, [[1]], [0]⟩ () 1).2.2.length
      = 1 ∧
    (pad5 0).length = 5 :=
  ⟨List.cons_ne_nil _ _, by decide,
   (train_epoch_report (fun p (o : Unit) _ => (p, o)) (fun _ _ => 0)
     (fun _ => 1) [(⟨1, [], [("node_attr", [[1]])], [1]⟩, 0)]
     ⟨⟨[[1]], [0]⟩, ⟨[[1]], [0]⟩, ⟨[[1]], [0]⟩, [[1]], [0]⟩ () 0
     (List.cons_ne_nil _ _) (by decide)).2.1,
   (train_epoch_report (fun p (o : Unit) _ => (p, o)) (fun _ _ => 0)
     (fun _ => 1) [(⟨1, [], [("node_attr", [[1]])], [1]⟩, 0)]
     ⟨⟨[[1]], [0]⟩, ⟨[[1]], [0]⟩, ⟨[[1]], [0]⟩, [[1]], [0]⟩ () 0
     (List.cons_ne_nil _ _) (by decide)).2.2⟩
